import Mathlib

/-!
Verification of the wasmd core: the gas metering bridge
(`x/wasm/keeper/gas_register.go`), the capability-scoped port binding and
port-identifier codec (`x/wasm/internal/keeper/ibc.go`), and the ping-pong
mock contract's packet state machine (`x/wasm/relay_pingpong_test.go`).

Go `uint64` arithmetic is embedded as `Nat` with an explicit `% 2 ^ 64`
wherever the Go computation can wrap; byte strings are `List Nat` with
elements below 256; Go `string` values are `List Char` (for the
base64-encoded port identifiers) or `String` (for channel names and
actors); fallible Go functions returning `error` are embedded with
`Except String`.
-/

deriving instance DecidableEq for Except

namespace Wasmd

/-! ### Gas register — `x/wasm/keeper/gas_register.go` -/

/-- Default multiplier between sdk gas and wasmVM gas (`DefaultGasMultiplier`). -/
def DefaultGasMultiplier : Nat := 100

/-- Default sdk gas charged to load a WASM instance (`DefaultInstanceCost`). -/
def DefaultInstanceCost : Nat := 40000

/-- Default sdk gas per byte of compiled code (`DefaultCompileCost`). -/
def DefaultCompileCost : Nat := 2

/-- Default sdk gas per byte of event attribute data (`DefaultEventAttributeDataCost`). -/
def DefaultEventAttributeDataCost : Nat := 1

/-- Default sdk gas per event attribute (`DefaultPerAttributeCost`). -/
def DefaultPerAttributeCost : Nat := 10

/-- Default free tier of attribute data bytes (`DefaultEventAttributeDataFreeTier`).
The Go field is an `int`; only non-negative byte counts occur as configuration. -/
def DefaultEventAttributeDataFreeTier : Nat := 100

/-- Cost model configuration, mirroring the Go struct `GasRegister`. -/
structure GasRegister where
  instanceCost : Nat
  compileCost : Nat
  gasMultiplier : Nat
  eventPerAttributeCost : Nat
  eventAttributeDataCost : Nat
  eventAttributeDataFreeTier : Nat
deriving DecidableEq

/-- Mirrors Go `DefaultGasRegister()`. -/
def DefaultGasRegister : GasRegister :=
  { instanceCost := DefaultInstanceCost
    compileCost := DefaultCompileCost
    gasMultiplier := DefaultGasMultiplier
    eventPerAttributeCost := DefaultPerAttributeCost
    eventAttributeDataCost := DefaultEventAttributeDataCost
    eventAttributeDataFreeTier := DefaultEventAttributeDataFreeTier }

/-- One event attribute; `key` and `value` are the raw byte strings
(Go `wasmvmtypes.EventAttribute`, where `len` counts bytes). -/
structure EventAttribute where
  key : List Nat
  value : List Nat
deriving DecidableEq

/-- Mathematical total of the attribute bytes, `Σ (len(key) + len(value))`,
at full precision. The claims are stated against this total; the Go
accumulator itself is `eventStoredBytes` below. -/
def eventDataBytes (evts : List EventAttribute) : Nat :=
  (evts.map (fun l => l.key.length + l.value.length)).sum

/-- Two's-complement wrap of an integer into the signed 64-bit range
`[-2 ^ 63, 2 ^ 63)`: the behavior of Go `int` arithmetic on overflow. -/
def wrapInt64 (z : Int) : Int := (z + 2 ^ 63) % 2 ^ 64 - 2 ^ 63

/-- One iteration of the byte loop of `EventCosts` on a Go `int`:
`storedBytes += len(l.Key) + len(l.Value)`, each addition wrapping. -/
def eventStoredBytesStep (acc : Int) (l : EventAttribute) : Int :=
  wrapInt64 (acc + wrapInt64 ((l.key.length : Int) + (l.value.length : Int)))

/-- The `storedBytes` accumulator of `EventCosts`: a signed 64-bit Go
`int`, wrapping on overflow. -/
def eventStoredBytes (evts : List EventAttribute) : Int :=
  evts.foldl eventStoredBytesStep 0

/-- Attribute bytes after the free tier is applied, as in `EventCosts`:
the signed comparison and subtraction on the Go `int` `storedBytes`, then
the `uint64(storedBytes)` conversion of the non-negative result. -/
def eventBillableBytes (g : GasRegister) (evts : List EventAttribute) : Nat :=
  if eventStoredBytes evts ≤ (g.eventAttributeDataFreeTier : Int) then 0
  else (eventStoredBytes evts - (g.eventAttributeDataFreeTier : Int)).toNat

/-- The value `EventCosts` computes in `sdk.Int` arithmetic from the
wrapped byte accumulator: `dataCost * billableBytes + perAttributeCost *
len(evts)`. -/
def eventCostTotal (g : GasRegister) (evts : List EventAttribute) : Nat :=
  g.eventAttributeDataCost * eventBillableBytes g evts +
    g.eventPerAttributeCost * evts.length

/-- The specification's exact event cost over the true byte total:
`eventAttrCost * billableBytes + eventAttrCountCost * count` with
`billableBytes = max(0, bytes - freeTier)`; written from the spec's
formula, to compare `eventCosts` against. -/
def eventCostExact (g : GasRegister) (evts : List EventAttribute) : Nat :=
  g.eventAttributeDataCost *
    (if eventDataBytes evts ≤ g.eventAttributeDataFreeTier then 0
     else eventDataBytes evts - g.eventAttributeDataFreeTier) +
    g.eventPerAttributeCost * evts.length

/-- Values already in the signed 64-bit range are fixed by the wrap. -/
theorem wrapInt64_eq_self (z : Int) (h1 : -(2 ^ 63) ≤ z) (h2 : z < 2 ^ 63) :
    wrapInt64 z = z := by
  rw [wrapInt64, Int.emod_eq_of_lt (by omega) (by omega)]
  omega

/-- The wrap always lands in the signed 64-bit range. -/
theorem wrapInt64_range (z : Int) : -(2 ^ 63) ≤ wrapInt64 z ∧ wrapInt64 z < 2 ^ 63 := by
  rw [wrapInt64]
  have h1 : 0 ≤ (z + 2 ^ 63) % 2 ^ 64 := Int.emod_nonneg _ (by norm_num)
  have h2 : (z + 2 ^ 63) % 2 ^ 64 < 2 ^ 64 := Int.emod_lt_of_pos _ (by norm_num)
  omega

/-- The byte accumulator stays in the signed 64-bit range. -/
theorem eventStoredBytes_fold_range :
    ∀ (evts : List EventAttribute) (acc : Int), -(2 ^ 63) ≤ acc → acc < 2 ^ 63 →
      -(2 ^ 63) ≤ List.foldl eventStoredBytesStep acc evts ∧
      List.foldl eventStoredBytesStep acc evts < 2 ^ 63 := by
  intro evts
  induction evts with
  | nil =>
    intro acc h1 h2
    exact ⟨h1, h2⟩
  | cons l rest ih =>
    intro acc h1 h2
    rw [List.foldl_cons]
    have hr := wrapInt64_range (acc + wrapInt64 ((l.key.length : Int) + (l.value.length : Int)))
    exact ih _ (by rw [eventStoredBytesStep]; exact hr.1) (by rw [eventStoredBytesStep]; exact hr.2)

/-- The accumulated byte count is always below `2 ^ 63`. -/
theorem eventStoredBytes_lt (evts : List EventAttribute) :
    eventStoredBytes evts < 2 ^ 63 :=
  (eventStoredBytes_fold_range evts 0 (by norm_num) (by norm_num)).2

/-- While the running byte total stays below `2 ^ 63`, no addition wraps
and the Go accumulator agrees with the mathematical total. -/
theorem eventStoredBytes_foldl_eq (evts : List EventAttribute) :
    ∀ acc : Nat, acc + eventDataBytes evts < 2 ^ 63 →
      List.foldl eventStoredBytesStep (acc : Int) evts =
        ((acc + eventDataBytes evts : Nat) : Int) := by
  induction evts with
  | nil =>
    intro acc h
    rw [List.foldl_nil]
    have hd : eventDataBytes [] = 0 := rfl
    rw [hd]
    simp
  | cons l rest ih =>
    intro acc h
    have hd : eventDataBytes (l :: rest) =
        l.key.length + l.value.length + eventDataBytes rest := by
      rw [eventDataBytes, eventDataBytes, List.map_cons, List.sum_cons]
    rw [hd] at h
    rw [List.foldl_cons]
    have hinner : wrapInt64 ((l.key.length : Int) + (l.value.length : Int)) =
        (l.key.length : Int) + (l.value.length : Int) :=
      wrapInt64_eq_self _ (by push_cast; omega) (by push_cast; omega)
    have hstep : eventStoredBytesStep (acc : Int) l =
        ((acc + (l.key.length + l.value.length) : Nat) : Int) := by
      rw [eventStoredBytesStep, hinner,
        wrapInt64_eq_self _ (by push_cast; omega) (by push_cast; omega)]
      push_cast
      ring
    have hih := ih (acc + (l.key.length + l.value.length)) (by omega)
    rw [hstep, hih]
    omega

/-- Bridge: with the true byte total below `2 ^ 63` the Go accumulator
computes exactly that total. -/
theorem eventStoredBytes_eq_of_lt (evts : List EventAttribute)
    (h : eventDataBytes evts < 2 ^ 63) :
    eventStoredBytes evts = (eventDataBytes evts : Int) := by
  have hfold := eventStoredBytes_foldl_eq evts 0 (by omega)
  rw [eventStoredBytes]
  simpa using hfold

/-- When the true byte total stays within the free tier, no byte is
billable: either nothing wraps and the stored total is within the tier,
or (for a free tier at or above `2 ^ 63`, not representable as a Go
config) the wrapped accumulator is below it anyway. -/
theorem eventBillableBytes_of_le (g : GasRegister) (evts : List EventAttribute)
    (h : eventDataBytes evts ≤ g.eventAttributeDataFreeTier) :
    eventBillableBytes g evts = 0 := by
  rw [eventBillableBytes]
  rcases Nat.lt_or_ge g.eventAttributeDataFreeTier (2 ^ 63) with hf | hf
  · rw [eventStoredBytes_eq_of_lt evts (by omega)]
    rw [if_pos (by exact_mod_cast h)]
  · have hr := eventStoredBytes_lt evts
    rw [if_pos (by omega)]

/-- Bridge: with no wrap, the value `EventCosts` computes is the
specification's exact cost. -/
theorem eventCostTotal_eq_exact (g : GasRegister) (evts : List EventAttribute)
    (h : eventDataBytes evts < 2 ^ 63) :
    eventCostTotal g evts = eventCostExact g evts := by
  rw [eventCostTotal, eventCostExact]
  congr 1
  congr 1
  rw [eventBillableBytes, eventStoredBytes_eq_of_lt evts h]
  by_cases hle : eventDataBytes evts ≤ g.eventAttributeDataFreeTier
  · rw [if_pos (by exact_mod_cast hle), if_pos hle]
  · rw [if_neg (fun hc => hle (by exact_mod_cast hc)), if_neg hle]
    omega

/-- Mirrors `GasRegister.EventCosts`: returns 0 for an empty attribute list,
otherwise the exact cost when it fits `uint64`; the Go code panics with
`sdk.ErrorOutOfGas` when `r.IsUint64()` fails, embedded as `.error`. -/
def eventCosts (g : GasRegister) (evts : List EventAttribute) : Except String Nat :=
  if evts.length = 0 then .ok 0
  else if eventCostTotal g evts ≤ 2 ^ 64 - 1 then .ok (eventCostTotal g evts)
  else .error "overflow"

/-- Mirrors `GasRegister.ToWasmVMGas`: `source * g.gasMultiplier` on Go
`uint64`, which wraps modulo `2 ^ 64`. -/
def toWasmVMGas (g : GasRegister) (source : Nat) : Nat :=
  source * g.gasMultiplier % 2 ^ 64

/-- Mirrors `GasRegister.FromWasmVMGas`: integer (floor) division of the
wasmVM gas by the multiplier. -/
def fromWasmVMGas (g : GasRegister) (source : Nat) : Nat :=
  source / g.gasMultiplier

/-- C1: for every ledger-gas value whose product with the (positive)
multiplier fits `uint64`, `FromWasmVMGas (ToWasmVMGas g) = g`;
`ToWasmVMGas` is exact multiplication there, and `FromWasmVMGas` floors,
so `FromWasmVMGas v * multiplier ≤ v` — fractional VM gas is never
rounded up. -/
theorem gas_conversion_round_trip (g : GasRegister) (source : Nat)
    (hmul : 0 < g.gasMultiplier) (hnof : source * g.gasMultiplier < 2 ^ 64) :
    fromWasmVMGas g (toWasmVMGas g source) = source ∧
    toWasmVMGas g source = source * g.gasMultiplier ∧
    (∀ v : Nat, fromWasmVMGas g v * g.gasMultiplier ≤ v) := by
  have ht : toWasmVMGas g source = source * g.gasMultiplier :=
    Nat.mod_eq_of_lt hnof
  refine ⟨?_, ht, fun v => Nat.div_mul_le_self v _⟩
  rw [ht]
  exact Nat.mul_div_cancel _ hmul

/-- Witness for C1 at the default register and ledger gas 7. -/
theorem gas_conversion_round_trip_witness :
    fromWasmVMGas DefaultGasRegister (toWasmVMGas DefaultGasRegister 7) = 7 :=
  (gas_conversion_round_trip DefaultGasRegister 7 (by decide) (by decide)).1

/-- C10 counterexample: `ToWasmVMGas` does wrap modulo `2 ^ 64`: at the
default multiplier 100, ledger gas `2 ^ 63` yields 0, not the exact
mathematical product `2 ^ 63 * 100`. -/
theorem toWasmVMGas_wraps_counterexample :
    toWasmVMGas DefaultGasRegister (2 ^ 63) = 0 ∧
    toWasmVMGas DefaultGasRegister (2 ^ 63) ≠ 2 ^ 63 * DefaultGasRegister.gasMultiplier := by
  constructor <;> decide

/-- C10 (amended): `ToWasmVMGas` returns the exact product
`ledgerGas * multiplier` exactly when that product is below `2 ^ 64`;
otherwise the Go `uint64` multiplication silently wraps modulo `2 ^ 64`. -/
theorem toWasmVMGas_exact_of_no_overflow (g : GasRegister) (source : Nat)
    (h : source * g.gasMultiplier < 2 ^ 64) :
    toWasmVMGas g source = source * g.gasMultiplier :=
  Nat.mod_eq_of_lt h

/-- Witness for the amended C10 at the default register and ledger gas 5. -/
theorem toWasmVMGas_exact_of_no_overflow_witness :
    toWasmVMGas DefaultGasRegister 5 = 5 * DefaultGasRegister.gasMultiplier :=
  toWasmVMGas_exact_of_no_overflow DefaultGasRegister 5 (by decide)

/-- Attribute with a `2 ^ 62`-byte key and a `2 ^ 62`-byte value: the C4
counterexample input. -/
def bigAttr : EventAttribute :=
  { key := List.replicate (2 ^ 62) 0, value := List.replicate (2 ^ 62) 0 }

/-- C4 counterexample: for three attributes carrying `2 ^ 62`-byte keys
and values the exact event cost (about `2 ^ 64 + 2 ^ 63`) exceeds the
`uint64` gas range, yet the Go `int` byte accumulator wraps (to
`-2 ^ 63`, back to 0, to `-2 ^ 63` again), the signed free-tier
comparison zeroes the negative total, and `EventCosts` returns
`3 * eventAttrCountCost = 30` with no panic — it neither aborts nor
returns the exact cost. -/
theorem eventCosts_int_wrap_counterexample :
    2 ^ 64 - 1 < eventCostExact DefaultGasRegister [bigAttr, bigAttr, bigAttr] ∧
    eventCosts DefaultGasRegister [bigAttr, bigAttr, bigAttr] = .ok 30 := by
  have hk : bigAttr.key.length = 2 ^ 62 := by
    rw [bigAttr]
    exact List.length_replicate _ _
  have hv : bigAttr.value.length = 2 ^ 62 := by
    rw [bigAttr]
    exact List.length_replicate _ _
  have hdb : eventDataBytes [bigAttr, bigAttr, bigAttr] = 3 * 2 ^ 63 := by
    simp only [eventDataBytes, List.map_cons, List.map_nil, List.sum_cons, List.sum_nil,
      hk, hv]
    norm_num
  constructor
  · rw [eventCostExact, hdb]
    rw [if_neg (by norm_num [DefaultGasRegister, DefaultEventAttributeDataFreeTier])]
    norm_num [DefaultGasRegister, DefaultEventAttributeDataCost,
      DefaultEventAttributeDataFreeTier, DefaultPerAttributeCost]
  · have hstep1 : eventStoredBytesStep 0 bigAttr = -(2 ^ 63) := by
      rw [eventStoredBytesStep, hk, hv]
      simp only [wrapInt64]
      decide
    have hstep2 : eventStoredBytesStep (-(2 ^ 63)) bigAttr = 0 := by
      rw [eventStoredBytesStep, hk, hv]
      simp only [wrapInt64]
      decide
    have hsb : eventStoredBytes [bigAttr, bigAttr, bigAttr] = -(2 ^ 63) := by
      rw [eventStoredBytes, List.foldl_cons, hstep1, List.foldl_cons, hstep2,
        List.foldl_cons, hstep1, List.foldl_nil]
    have hbill : eventBillableBytes DefaultGasRegister [bigAttr, bigAttr, bigAttr] = 0 := by
      rw [eventBillableBytes, hsb]
      rw [if_pos (by norm_num [DefaultGasRegister, DefaultEventAttributeDataFreeTier])]
    have htot : eventCostTotal DefaultGasRegister [bigAttr, bigAttr, bigAttr] = 30 := by
      rw [eventCostTotal, hbill]
      norm_num [DefaultGasRegister, DefaultPerAttributeCost]
    rw [eventCosts, htot]
    rw [if_neg (by norm_num : ¬ (([bigAttr, bigAttr, bigAttr] : List EventAttribute).length = 0))]
    rw [if_pos (by norm_num)]

/-- C4 (amended): provided the total attribute bytes stay below `2 ^ 63` —
so the Go `int` byte accumulator does not wrap, which covers every
physically realizable attribute list — `EventCosts` aborts (panics with
`ErrorOutOfGas`, embedded as `.error "overflow"`) whenever the exact
event cost `billableBytes * eventAttrCost + count * eventAttrCountCost`
exceeds the `uint64` gas range; and any value it does return is that
exact untruncated cost, within range. -/
theorem eventCosts_overflow_aborts (g : GasRegister) (evts : List EventAttribute)
    (hnowrap : eventDataBytes evts < 2 ^ 63) :
    (2 ^ 64 - 1 < eventCostExact g evts → eventCosts g evts = .error "overflow") ∧
    (∀ n, eventCosts g evts = .ok n → n = eventCostExact g evts ∧ n ≤ 2 ^ 64 - 1) := by
  rw [← eventCostTotal_eq_exact g evts hnowrap]
  unfold eventCosts
  by_cases h0 : evts.length = 0
  · have hnil : evts = [] := List.length_eq_zero.mp h0
    subst hnil
    have hsb0 : eventStoredBytes ([] : List EventAttribute) = 0 := rfl
    have ht : eventCostTotal g [] = 0 := by
      rw [eventCostTotal, eventBillableBytes, hsb0, if_pos (Int.natCast_nonneg _)]
      simp
    rw [if_pos (show ([] : List EventAttribute).length = 0 from rfl)]
    refine ⟨fun hlt => ?_, fun n hn => ?_⟩
    · rw [ht] at hlt
      omega
    · cases hn
      exact ⟨ht.symm, Nat.zero_le _⟩
  · by_cases h1 : eventCostTotal g evts ≤ 2 ^ 64 - 1
    · rw [if_neg h0, if_pos h1]
      refine ⟨fun hlt => absurd h1 (by omega), fun n hn => ?_⟩
      cases hn
      exact ⟨rfl, h1⟩
    · rw [if_neg h0, if_neg h1]
      exact ⟨fun _ => rfl, fun n hn => Except.noConfusion hn⟩

/-- Register used for the C4 witness: per-byte attribute cost at the
`uint64` maximum so a single billable byte overflows. -/
def overflowRegister : GasRegister :=
  { instanceCost := 0
    compileCost := 0
    gasMultiplier := 100
    eventPerAttributeCost := 10
    eventAttributeDataCost := 2 ^ 64 - 1
    eventAttributeDataFreeTier := 0 }

/-- Witness for the amended C4: two attribute-data bytes at per-byte cost
`2 ^ 64 - 1` overflow, and `EventCosts` aborts. -/
theorem eventCosts_overflow_aborts_witness :
    eventCosts overflowRegister [⟨[1, 2], []⟩] = .error "overflow" :=
  (eventCosts_overflow_aborts overflowRegister [⟨[1, 2], []⟩] (by decide)).1 (by decide)

/-- C5 (amended): when the summed attribute bytes are at most the free
tier, the per-byte component is fully waived and `EventCosts` returns
exactly `count * eventAttrCountCost` — provided that count component
itself fits the `uint64` gas range (otherwise `EventCosts` aborts with
the gas-overflow panic instead of returning). -/
theorem eventCosts_free_tier (g : GasRegister) (evts : List EventAttribute)
    (hbytes : eventDataBytes evts ≤ g.eventAttributeDataFreeTier)
    (hfit : g.eventPerAttributeCost * evts.length ≤ 2 ^ 64 - 1) :
    eventCosts g evts = .ok (g.eventPerAttributeCost * evts.length) := by
  have hb : eventBillableBytes g evts = 0 := eventBillableBytes_of_le g evts hbytes
  have ht : eventCostTotal g evts = g.eventPerAttributeCost * evts.length := by
    unfold eventCostTotal
    rw [hb]
    ring
  unfold eventCosts
  by_cases h0 : evts.length = 0
  · simp [h0]
  · rw [if_neg h0, ht, if_pos hfit]

/-- Witness for the amended C5: three attributes with 4 data bytes total
(within the default 100-byte free tier) cost exactly `3 * 10`. -/
theorem eventCosts_free_tier_witness :
    eventCosts DefaultGasRegister [⟨[1], [2]⟩, ⟨[3], []⟩, ⟨[], [4]⟩] =
      .ok (DefaultGasRegister.eventPerAttributeCost * 3) :=
  eventCosts_free_tier DefaultGasRegister [⟨[1], [2]⟩, ⟨[3], []⟩, ⟨[], [4]⟩]
    (by decide) (by decide)

/-- C5 counterexample: at the default register, `2 ^ 61` empty attributes
stay within the free tier (zero data bytes), yet `EventCosts` does not
return `count * eventAttrCountCost`: the count component `10 * 2 ^ 61`
exceeds `uint64` and the call aborts with the gas-overflow panic. -/
theorem eventCosts_free_tier_counterexample :
    eventDataBytes (List.replicate (2 ^ 61) (⟨[], []⟩ : EventAttribute)) ≤
      DefaultGasRegister.eventAttributeDataFreeTier ∧
    eventCosts DefaultGasRegister (List.replicate (2 ^ 61) ⟨[], []⟩) ≠
      .ok (DefaultGasRegister.eventPerAttributeCost * (List.replicate (2 ^ 61) (⟨[], []⟩ : EventAttribute)).length) := by
  have hsb : eventDataBytes (List.replicate (2 ^ 61) (⟨[], []⟩ : EventAttribute)) = 0 := by
    rw [eventDataBytes, List.map_replicate, List.sum_replicate]
    simp
  have hone : eventDataBytes (List.replicate (2 ^ 61) (⟨[], []⟩ : EventAttribute)) ≤
      DefaultGasRegister.eventAttributeDataFreeTier := by
    rw [hsb]
    exact Nat.zero_le _
  have hb : eventBillableBytes DefaultGasRegister (List.replicate (2 ^ 61) ⟨[], []⟩) = 0 :=
    eventBillableBytes_of_le _ _ hone
  have ht : eventCostTotal DefaultGasRegister (List.replicate (2 ^ 61) ⟨[], []⟩) = 10 * 2 ^ 61 := by
    rw [eventCostTotal, hb, List.length_replicate]
    norm_num [DefaultGasRegister, DefaultPerAttributeCost]
  refine ⟨hone, ?_⟩
  rw [eventCosts, ht, List.length_replicate]
  have h1 : ¬ ((2 ^ 61 : Nat) = 0) := by norm_num
  have h2 : ¬ ((10 : Nat) * 2 ^ 61 ≤ 2 ^ 64 - 1) := by norm_num
  rw [if_neg h1, if_neg h2]
  exact fun hcontra => Except.noConfusion hcontra

/-! ### Port identifier codec — `x/wasm/internal/keeper/ibc.go`

The port identifier is `"wasm" + base64-no-padding(varint(codeID<<32 + instanceID))`.
The base64 codec models Go `encoding/base64.StdEncoding.WithPadding(NoPadding)`
(Go additionally skips CR and LF while decoding, which no input considered
here contains), and the varint codec models Go `encoding/binary`
`PutUvarint` and `Uvarint`. -/

/-- Standard base64 alphabet of Go `encoding/base64.StdEncoding`. -/
def b64Alphabet : List Char :=
  "ABCDEFGHIJKLMNOPQRSTUVWXYZabcdefghijklmnopqrstuvwxyz0123456789+/".toList

/-- Character encoding one 6-bit group. -/
def b64EncChar (v : Nat) : Char := b64Alphabet.getD v 'A'

/-- Reverse alphabet lookup; `none` for a character outside the alphabet
(the decode error case of Go base64). -/
def b64DecChar (c : Char) : Option Nat := b64Alphabet.findIdx? (· == c)

/-- Base64 encoding without padding: full 3-byte groups yield 4 characters,
a trailing 2-byte group yields 3, a trailing single byte yields 2. -/
def b64Encode : List Nat → List Char
  | b0 :: b1 :: b2 :: rest =>
    b64EncChar (b0 >>> 2) ::
    b64EncChar (((b0 &&& 3) <<< 4) ||| (b1 >>> 4)) ::
    b64EncChar (((b1 &&& 15) <<< 2) ||| (b2 >>> 6)) ::
    b64EncChar (b2 &&& 63) :: b64Encode rest
  | [b0, b1] =>
    [b64EncChar (b0 >>> 2), b64EncChar (((b0 &&& 3) <<< 4) ||| (b1 >>> 4)),
     b64EncChar ((b1 &&& 15) <<< 2)]
  | [b0] =>
    [b64EncChar (b0 >>> 2), b64EncChar ((b0 &&& 3) <<< 4)]
  | [] => []

/-- Base64 decoding without padding: 4-character quanta yield 3 bytes, a
trailing group of 3 yields 2 bytes, of 2 yields 1 byte; a trailing single
character or a character outside the alphabet is a decode error (Go's
`CorruptInputError`). -/
def b64Decode : List Char → Except String (List Nat)
  | [] => .ok []
  | [_] => .error "corrupted input"
  | [c0, c1] =>
    match b64DecChar c0, b64DecChar c1 with
    | some v0, some v1 => .ok [(v0 <<< 2) ||| (v1 >>> 4)]
    | _, _ => .error "illegal data"
  | [c0, c1, c2] =>
    match b64DecChar c0, b64DecChar c1, b64DecChar c2 with
    | some v0, some v1, some v2 =>
      .ok [(v0 <<< 2) ||| (v1 >>> 4), ((v1 &&& 15) <<< 4) ||| (v2 >>> 2)]
    | _, _, _ => .error "illegal data"
  | c0 :: c1 :: c2 :: c3 :: rest =>
    match b64DecChar c0, b64DecChar c1, b64DecChar c2, b64DecChar c3 with
    | some v0, some v1, some v2, some v3 =>
      match b64Decode rest with
      | .ok bs =>
        .ok (((v0 <<< 2) ||| (v1 >>> 4)) :: (((v1 &&& 15) <<< 4) ||| (v2 >>> 2)) ::
          (((v2 &&& 3) <<< 6) ||| v3) :: bs)
      | .error e => .error e
    | _, _, _, _ => .error "illegal data"

/-- Mirrors Go `binary.PutUvarint`: 7-bit groups, least significant first,
with the continuation bit 0x80 on all but the last byte. `byte(x) | 0x80`
is `(x % 2 ^ 8) ||| 0x80`; the final byte has `x < 0x80`. -/
def putUvarintFuel : Nat → Nat → List Nat
  | 0, x => [x]
  | fuel + 1, x =>
    if 0x80 ≤ x then ((x % 2 ^ 8) ||| 0x80) :: putUvarintFuel fuel (x >>> 7) else [x]

/-- Go `PutUvarint` as a function of the value alone: fuel equal to the
value always suffices because the loop divides the value by 128 each
round (see `putUvarint_eq` for the loop equation). -/
def putUvarint (x : Nat) : List Nat := putUvarintFuel x x

/-- The result of `putUvarintFuel` does not depend on the fuel, as long as
the fuel is at least the value. -/
theorem putUvarintFuel_stable :
    ∀ fuel1 fuel2 x, x ≤ fuel1 → x ≤ fuel2 →
      putUvarintFuel fuel1 x = putUvarintFuel fuel2 x := by
  intro fuel1
  induction fuel1 with
  | zero =>
    intro fuel2 x h1 h2
    have hx : x = 0 := by omega
    subst hx
    cases fuel2 with
    | zero => rfl
    | succ g => simp [putUvarintFuel]
  | succ f ih =>
    intro fuel2 x h1 h2
    cases fuel2 with
    | zero =>
      have hx : x = 0 := by omega
      subst hx
      simp [putUvarintFuel]
    | succ g =>
      rw [putUvarintFuel, putUvarintFuel]
      by_cases hb : 0x80 ≤ x
      · rw [if_pos hb, if_pos hb]
        have hdiv : x >>> 7 < x := by
          rw [Nat.shiftRight_eq_div_pow]
          exact Nat.div_lt_self (by omega) (by norm_num)
        rw [ih g (x >>> 7) (by omega) (by omega)]
      · rw [if_neg hb, if_neg hb]

/-- Loop equation of Go `binary.PutUvarint`: emit `byte(x) | 0x80` and
continue with `x >> 7` while `x ≥ 0x80`, else emit the final byte. -/
theorem putUvarint_eq (x : Nat) :
    putUvarint x = if 0x80 ≤ x then ((x % 2 ^ 8) ||| 0x80) :: putUvarint (x >>> 7) else [x] := by
  by_cases hb : 0x80 ≤ x
  · rw [if_pos hb]
    rw [putUvarint]
    cases hx : x with
    | zero => omega
    | succ m =>
      rw [putUvarintFuel, if_pos (by omega)]
      have hdiv : (m + 1) >>> 7 ≤ m := by
        rw [Nat.shiftRight_eq_div_pow]
        have := Nat.div_lt_self (show 0 < m + 1 by omega) (show 1 < 2 ^ 7 by norm_num)
        omega
      rw [putUvarint]
      rw [putUvarintFuel_stable m ((m + 1) >>> 7) ((m + 1) >>> 7) hdiv (le_refl _)]
  · rw [if_neg hb, putUvarint]
    cases hx : x with
    | zero => rfl
    | succ m => rw [putUvarintFuel, if_neg (by omega)]

/-- Mirrors the loop of Go `binary.Uvarint`: `i` is the byte index, `s` the
shift, `x` the accumulator. A terminating byte at index above 9, or at
index 9 with value above 1, reports overflow as a negative count; running
out of bytes reports 0. Shifts are on Go `uint64`, hence the `% 2 ^ 64`. -/
def uvarintAux : List Nat → Nat → Nat → Nat → Nat × Int
  | [], _, _, _ => (0, 0)
  | b :: rest, i, s, x =>
    if b < 0x80 then
      if 9 < i ∨ (i = 9 ∧ 1 < b) then (0, -((i : Int) + 1))
      else (x ||| ((b <<< s) % 2 ^ 64), (i : Int) + 1)
    else uvarintAux rest (i + 1) (s + 7) (x ||| (((b &&& 0x7f) <<< s) % 2 ^ 64))

/-- Mirrors Go `binary.Uvarint`: value and byte count (`0` for an empty or
all-continuation buffer, negative for 64-bit overflow). -/
def uvarint (buf : List Nat) : Nat × Int := uvarintAux buf 0 0 0

/-- Fixed port tag: the Go constant holding the four characters before the
encoded contract id. -/
def portIDTag : List Char := ['w', 'a', 's', 'm']

/-- Contract identity. -/
structure ContractID where
  codeID : Nat
  instanceID : Nat
deriving DecidableEq

/-- Modelled from the spec: Go `contractAddress` (defined outside the given
sources) deterministically and injectively identifies the contract instance
from the pair; per the spec's data model a ContractID is exactly the pair
(codeID, instanceID). -/
def contractAddress (codeID instanceID : Nat) : ContractID :=
  { codeID := codeID, instanceID := instanceID }

/-- Mirrors `PortIDForContract`: pack `codeID<<32 + instanceID` (Go `uint64`
arithmetic, hence modulo `2 ^ 64`), varint-encode, base64-encode, and
prepend the tag. -/
def PortIDForContract (codeID instanceID : Nat) : List Char :=
  portIDTag ++ b64Encode (putUvarint ((codeID <<< 32 + instanceID) % 2 ^ 64))

/-- Mirrors `ContractFromPortID`, including the source's vacuous guard
`n == 0 && n <= 0` (equivalent to `n == 0`), which fails to reject the
negative overflow result of `Uvarint`. -/
def ContractFromPortID (portID : List Char) : Except String ContractID :=
  if !(portIDTag.isPrefixOf portID) then .error "without prefix"
  else
    match b64Decode (portID.drop portIDTag.length) with
    | .error e => .error e
    | .ok data =>
      let contractID := (uvarint data).1
      let n := (uvarint data).2
      if n = 0 ∧ n ≤ 0 then .error "decoding contract id"
      else .ok (contractAddress (contractID >>> 32) (contractID &&& 0xffffffff))

/-! ### Bit-level helper lemmas for the codec proofs -/

set_option maxRecDepth 8192 in
/-- Decoding inverts encoding on every 6-bit group. -/
theorem b64DecChar_b64EncChar : ∀ v, v < 64 → b64DecChar (b64EncChar v) = some v := by
  decide

theorem shiftRight2_lt (b : Nat) (h : b < 256) : b >>> 2 < 64 := by
  rw [Nat.shiftRight_eq_div_pow]
  omega

theorem shiftRight4_lt (b : Nat) (h : b < 256) : b >>> 4 < 16 := by
  rw [Nat.shiftRight_eq_div_pow]
  omega

theorem shiftRight6_lt (b : Nat) (h : b < 256) : b >>> 6 < 4 := by
  rw [Nat.shiftRight_eq_div_pow]
  omega

theorem and3_lt (b : Nat) : b &&& 3 < 4 :=
  Nat.lt_succ_of_le (Nat.and_le_right)

theorem and15_lt (b : Nat) : b &&& 15 < 16 :=
  Nat.lt_succ_of_le (Nat.and_le_right)

theorem and63_lt (b : Nat) : b &&& 63 < 64 :=
  Nat.lt_succ_of_le (Nat.and_le_right)

set_option maxRecDepth 8192 in
theorem group12_lt : ∀ a, a < 4 → ∀ c, c < 16 → ((a <<< 4) ||| c) < 64 := by
  decide

set_option maxRecDepth 8192 in
theorem group23_lt : ∀ a, a < 16 → ∀ c, c < 4 → ((a <<< 2) ||| c) < 64 := by
  decide

set_option maxRecDepth 8192 in
theorem split_hi4 : ∀ a, a < 4 → ∀ c, c < 16 → (((a <<< 4) ||| c) >>> 4) = a := by
  decide

set_option maxRecDepth 8192 in
theorem split_lo4 : ∀ a, a < 4 → ∀ c, c < 16 → (((a <<< 4) ||| c) &&& 15) = c := by
  decide

set_option maxRecDepth 8192 in
theorem split_hi2 : ∀ a, a < 16 → ∀ c, c < 4 → (((a <<< 2) ||| c) >>> 2) = a := by
  decide

set_option maxRecDepth 8192 in
theorem split_lo2 : ∀ a, a < 16 → ∀ c, c < 4 → (((a <<< 2) ||| c) &&& 3) = c := by
  decide

set_option maxRecDepth 8192 in
theorem recompose2 : ∀ b, b < 256 → ((b >>> 2) <<< 2) ||| (b &&& 3) = b := by
  decide

set_option maxRecDepth 8192 in
theorem recompose4 : ∀ b, b < 256 → ((b >>> 4) <<< 4) ||| (b &&& 15) = b := by
  decide

set_option maxRecDepth 8192 in
theorem recompose6 : ∀ b, b < 256 → ((b >>> 6) <<< 6) ||| (b &&& 63) = b := by
  decide

set_option maxRecDepth 8192 in
theorem shl2_shr2 : ∀ a, a < 16 → ((a <<< 2) >>> 2) = a := by
  decide

set_option maxRecDepth 8192 in
theorem shl4_shr4 : ∀ a, a < 4 → ((a <<< 4) >>> 4) = a := by
  decide

set_option maxRecDepth 8192 in
theorem shl2_lt : ∀ a, a < 16 → (a <<< 2) < 64 := by
  decide

set_option maxRecDepth 8192 in
theorem shl4_lt : ∀ a, a < 4 → (a <<< 4) < 64 := by
  decide

/-- Bitwise or of a value below `2 ^ k` with a multiple of `2 ^ k` is their
sum: the two operands occupy disjoint bit ranges. -/
theorem lor_mul_two_pow (a b k : Nat) (h : a < 2 ^ k) :
    a ||| (b * 2 ^ k) = a + b * 2 ^ k := by
  apply Nat.eq_of_testBit_eq
  intro j
  rw [Nat.testBit_or]
  have hsum : (a + b * 2 ^ k) = 2 ^ k * b + a := by ring
  rw [hsum, Nat.testBit_mul_pow_two_add b h j]
  rcases Nat.lt_or_ge j k with hj | hj
  · rw [if_pos hj]
    have hz : (b * 2 ^ k).testBit j = false := by
      rw [← Nat.shiftLeft_eq, Nat.testBit_shiftLeft]
      simp [Nat.not_le_of_lt hj]
    rw [hz, Bool.or_false]
  · rw [if_neg (Nat.not_lt_of_ge hj)]
    have ha : a.testBit j = false :=
      Nat.testBit_lt_two_pow (lt_of_lt_of_le h (Nat.pow_le_pow_right (by norm_num) hj))
    have hb : (b * 2 ^ k).testBit j = b.testBit (j - k) := by
      rw [← Nat.shiftLeft_eq, Nat.testBit_shiftLeft]
      simp [hj]
    rw [ha, hb, Bool.false_or]

set_option maxRecDepth 8192 in
theorem or128_ge : ∀ y, y < 256 → 0x80 ≤ (y ||| 0x80) := by
  decide

set_option maxRecDepth 8192 in
theorem or128_lt : ∀ y, y < 256 → (y ||| 0x80) < 256 := by
  decide

set_option maxRecDepth 8192 in
theorem or128_and127 : ∀ y, y < 256 → ((y ||| 0x80) &&& 0x7f) = y % 0x80 := by
  decide

/-- Every byte emitted by `putUvarint` is a byte. -/
theorem putUvarint_lt (x : Nat) : ∀ b ∈ putUvarint x, b < 256 := by
  induction x using Nat.strong_induction_on with
  | _ x ih =>
    rw [putUvarint_eq]
    by_cases h : 0x80 ≤ x
    · rw [if_pos h]
      intro b hb
      rcases List.mem_cons.mp hb with hb | hb
      · subst hb
        exact or128_lt _ (Nat.mod_lt _ (by norm_num))
      · have hlt : x >>> 7 < x := by
          rw [Nat.shiftRight_eq_div_pow]
          exact Nat.div_lt_self (by omega) (by norm_num)
        exact ih _ hlt b hb
    · rw [if_neg h]
      intro b hb
      rcases List.mem_cons.mp hb with hb | hb
      · subst hb
        omega
      · cases hb

/-- Base64 decoding inverts encoding on every byte string (elements below 256). -/
theorem b64Decode_b64Encode (bs : List Nat) (h : ∀ b ∈ bs, b < 256) :
    b64Decode (b64Encode bs) = .ok bs :=
  match bs with
  | [] => rfl
  | [b0] => by
    have hb0 : b0 < 256 := h b0 (by simp)
    simp only [b64Encode, b64Decode]
    rw [b64DecChar_b64EncChar _ (shiftRight2_lt b0 hb0),
        b64DecChar_b64EncChar _ (shl4_lt _ (and3_lt b0))]
    simp only []
    rw [shl4_shr4 _ (and3_lt b0), recompose2 b0 hb0]
  | [b0, b1] => by
    have hb0 : b0 < 256 := h b0 (by simp)
    have hb1 : b1 < 256 := h b1 (by simp)
    simp only [b64Encode, b64Decode]
    rw [b64DecChar_b64EncChar _ (shiftRight2_lt b0 hb0),
        b64DecChar_b64EncChar _ (group12_lt _ (and3_lt b0) _ (shiftRight4_lt b1 hb1)),
        b64DecChar_b64EncChar _ (shl2_lt _ (and15_lt b1))]
    simp only []
    rw [split_hi4 _ (and3_lt b0) _ (shiftRight4_lt b1 hb1), recompose2 b0 hb0,
        split_lo4 _ (and3_lt b0) _ (shiftRight4_lt b1 hb1),
        shl2_shr2 _ (and15_lt b1), recompose4 b1 hb1]
  | b0 :: b1 :: b2 :: rest => by
    have hb0 : b0 < 256 := h b0 (by simp)
    have hb1 : b1 < 256 := h b1 (by simp)
    have hb2 : b2 < 256 := h b2 (by simp)
    have ih := b64Decode_b64Encode rest (fun b hb => h b (by simp [hb]))
    simp only [b64Encode, b64Decode]
    rw [b64DecChar_b64EncChar _ (shiftRight2_lt b0 hb0),
        b64DecChar_b64EncChar _ (group12_lt _ (and3_lt b0) _ (shiftRight4_lt b1 hb1)),
        b64DecChar_b64EncChar _ (group23_lt _ (and15_lt b1) _ (shiftRight6_lt b2 hb2)),
        b64DecChar_b64EncChar _ (and63_lt b2)]
    simp only []
    rw [ih]
    simp only []
    rw [split_hi4 _ (and3_lt b0) _ (shiftRight4_lt b1 hb1), recompose2 b0 hb0,
        split_lo4 _ (and3_lt b0) _ (shiftRight4_lt b1 hb1),
        split_hi2 _ (and15_lt b1) _ (shiftRight6_lt b2 hb2), recompose4 b1 hb1,
        split_lo2 _ (and15_lt b1) _ (shiftRight6_lt b2 hb2), recompose6 b2 hb2]

/-- Decoding a varint encoding recovers the value: generalized invariant of
the Go `Uvarint` loop over the bytes of `PutUvarint`, at byte index `i`,
shift `7 * i`, and accumulator `acc` holding the low `7 * i` bits. -/
theorem uvarintAux_putUvarint :
    ∀ x i acc, x < 2 ^ (64 - 7 * i) → i ≤ 9 → acc < 2 ^ (7 * i) →
      ∃ n : Nat, uvarintAux (putUvarint x) i (7 * i) acc =
        (acc + x * 2 ^ (7 * i), (n : Int)) ∧ i < n := by
  intro x
  induction x using Nat.strong_induction_on with
  | _ x ih =>
    intro i acc hx hi hacc
    rw [putUvarint_eq]
    by_cases h128 : 0x80 ≤ x
    · rw [if_pos h128]
      have hi8 : i ≤ 8 := by
        by_contra hgt
        have hi9 : i = 9 := by omega
        subst hi9
        have hx2 : x < 2 ^ (64 - 7 * 9) := hx
        norm_num at hx2
        omega
      have hxm : x % 2 ^ 8 < 256 := Nat.mod_lt _ (by norm_num)
      rw [uvarintAux]
      rw [if_neg (by have := or128_ge _ hxm; omega)]
      have hd : ((x % 2 ^ 8) ||| 0x80) &&& 0x7f = x % 0x80 := by
        rw [or128_and127 _ hxm, Nat.mod_mod_of_dvd x (by norm_num)]
      rw [hd, Nat.shiftLeft_eq]
      have hdlt : x % 0x80 < 2 ^ 7 := Nat.mod_lt _ (by norm_num)
      have hshift_lt : (x % 0x80) * 2 ^ (7 * i) < 2 ^ 64 := by
        have h1 : (x % 0x80) * 2 ^ (7 * i) < 2 ^ 7 * 2 ^ (7 * i) :=
          mul_lt_mul_of_pos_right hdlt (by positivity)
        have h2 : (2 : Nat) ^ 7 * 2 ^ (7 * i) = 2 ^ (7 + 7 * i) := (pow_add 2 7 (7 * i)).symm
        have h3 : (2 : Nat) ^ (7 + 7 * i) ≤ 2 ^ 64 := Nat.pow_le_pow_right (by norm_num) (by omega)
        omega
      rw [Nat.mod_eq_of_lt hshift_lt, lor_mul_two_pow _ _ _ hacc]
      have hacc' : acc + (x % 0x80) * 2 ^ (7 * i) < 2 ^ (7 * (i + 1)) := by
        have h1 : (x % 0x80) * 2 ^ (7 * i) ≤ 127 * 2 ^ (7 * i) :=
          mul_le_mul_right' (by omega) _
        have h2 : (2 : Nat) ^ (7 * (i + 1)) = 128 * 2 ^ (7 * i) := by
          have h3 : 7 * (i + 1) = 7 + 7 * i := by ring
          rw [h3, pow_add]
          norm_num
        omega
      have hx' : x >>> 7 < 2 ^ (64 - 7 * (i + 1)) := by
        rw [Nat.shiftRight_eq_div_pow]
        have hk : 64 - 7 * i = (64 - 7 * (i + 1)) + 7 := by omega
        rw [hk, pow_add] at hx
        exact (Nat.div_lt_iff_lt_mul (by norm_num : (0 : Nat) < 2 ^ 7)).mpr hx
      have hlt : x >>> 7 < x := by
        rw [Nat.shiftRight_eq_div_pow]
        exact Nat.div_lt_self (by omega) (by norm_num)
      obtain ⟨n, heq, hn⟩ := ih (x >>> 7) hlt (i + 1) (acc + (x % 0x80) * 2 ^ (7 * i)) hx' (by omega) hacc'
      refine ⟨n, ?_, by omega⟩
      have hseq : 7 * i + 7 = 7 * (i + 1) := by ring
      rw [hseq, heq]
      have hval : acc + (x % 0x80) * 2 ^ (7 * i) + (x >>> 7) * 2 ^ (7 * (i + 1)) =
          acc + x * 2 ^ (7 * i) := by
        rw [Nat.shiftRight_eq_div_pow]
        have h2 : (2 : Nat) ^ (7 * (i + 1)) = 2 ^ (7 * i) * 2 ^ 7 := by
          have h3 : 7 * (i + 1) = 7 * i + 7 := by ring
          rw [h3, pow_add]
        rw [h2]
        calc acc + (x % 0x80) * 2 ^ (7 * i) + x / 2 ^ 7 * (2 ^ (7 * i) * 2 ^ 7)
            = acc + (x % 2 ^ 7 + 2 ^ 7 * (x / 2 ^ 7)) * 2 ^ (7 * i) := by ring
          _ = acc + x * 2 ^ (7 * i) := by rw [Nat.mod_add_div]
      rw [hval]
    · rw [if_neg h128]
      have hxlt : x < 0x80 := by omega
      rw [uvarintAux, if_pos hxlt]
      have hcond : ¬ (9 < i ∨ (i = 9 ∧ 1 < x)) := by
        push_neg
        refine ⟨by omega, fun h9 => ?_⟩
        subst h9
        have hx2 : x < 2 ^ (64 - 7 * 9) := hx
        norm_num at hx2
        omega
      rw [if_neg hcond, Nat.shiftLeft_eq]
      have hlt : x * 2 ^ (7 * i) < 2 ^ 64 := by
        have h1 : x * 2 ^ (7 * i) < 2 ^ (64 - 7 * i) * 2 ^ (7 * i) :=
          mul_lt_mul_of_pos_right hx (by positivity)
        have h2 : (2 : Nat) ^ (64 - 7 * i) * 2 ^ (7 * i) = 2 ^ 64 := by
          rw [← pow_add]
          congr 1
          omega
        omega
      rw [Nat.mod_eq_of_lt hlt, lor_mul_two_pow _ _ _ hacc]
      refine ⟨i + 1, ?_, by omega⟩
      have hcast : ((i : Int) + 1) = ((i + 1 : Nat) : Int) := by push_cast; ring
      rw [hcast]

/-- Decoding inverts encoding for every `uint64` value, with a positive
byte count. -/
theorem uvarint_putUvarint (x : Nat) (hx : x < 2 ^ 64) :
    ∃ n : Nat, uvarint (putUvarint x) = (x, (n : Int)) ∧ 1 ≤ n := by
  obtain ⟨n, heq, hn⟩ := uvarintAux_putUvarint x 0 0 (by simpa using hx) (by omega) (by norm_num)
  refine ⟨n, ?_, by omega⟩
  rw [uvarint]
  simpa using heq

/-- C2: for every pair (codeID, instanceID) with both values at most
`2 ^ 32 - 1`, resolving the derived port identifier recovers exactly that
pair: `ContractFromPortID (PortIDForContract codeID instanceID)` succeeds
and identifies the contract unpacked as `value >> 32` and
`value & 0xFFFFFFFF` from the packed `codeID << 32 + instanceID`. -/
theorem contract_port_id_round_trip (codeID instanceID : Nat)
    (hc : codeID ≤ 2 ^ 32 - 1) (hinst : instanceID ≤ 2 ^ 32 - 1) :
    ContractFromPortID (PortIDForContract codeID instanceID) =
      .ok (contractAddress codeID instanceID) := by
  have hmul : codeID * 2 ^ 32 ≤ (2 ^ 32 - 1) * 2 ^ 32 := mul_le_mul_right' hc _
  have hval : (codeID <<< 32 + instanceID) % 2 ^ 64 = codeID * 2 ^ 32 + instanceID := by
    rw [Nat.shiftLeft_eq]
    apply Nat.mod_eq_of_lt
    omega
  have hv64 : codeID * 2 ^ 32 + instanceID < 2 ^ 64 := by omega
  rw [PortIDForContract, hval, ContractFromPortID]
  have hpre : portIDTag.isPrefixOf
      (portIDTag ++ b64Encode (putUvarint (codeID * 2 ^ 32 + instanceID))) = true :=
    List.isPrefixOf_iff_prefix.mpr (List.prefix_append _ _)
  rw [hpre]
  simp only [Bool.not_true, Bool.false_eq_true, if_false]
  rw [List.drop_left, b64Decode_b64Encode _ (putUvarint_lt _)]
  obtain ⟨n, hn, hn1⟩ := uvarint_putUvarint (codeID * 2 ^ 32 + instanceID) hv64
  simp only [hn]
  have hcond : ¬ (((n : Int) = 0) ∧ ((n : Int) ≤ 0)) := by
    have h1 : (1 : Int) ≤ (n : Int) := by exact_mod_cast hn1
    omega
  rw [if_neg hcond]
  have hshr : (codeID * 2 ^ 32 + instanceID) >>> 32 = codeID := by
    rw [Nat.shiftRight_eq_div_pow]
    omega
  have hand : (codeID * 2 ^ 32 + instanceID) &&& 0xffffffff = instanceID := by
    have hm : (0xffffffff : Nat) = 2 ^ 32 - 1 := by norm_num
    rw [hm, Nat.and_pow_two_sub_one_eq_mod]
    omega
  rw [hshr, hand]

/-- Witness for C2 at (codeID, instanceID) = (7, 9). -/
theorem contract_port_id_round_trip_witness :
    ContractFromPortID (PortIDForContract 7 9) = .ok (contractAddress 7 9) :=
  contract_port_id_round_trip 7 9 (by norm_num) (by norm_num)

set_option maxRecDepth 8192 in
/-- C3 failing input: a base64-encoded varint that overflows 64 bits (nine
continuation bytes 0x80 followed by the terminating byte 2) makes Go
`Uvarint` report overflow with the negative count -10, yet the vacuous
guard `n == 0 && n <= 0` in `ContractFromPortID` does not reject it: the
function returns the contract identity (0, 0) with no error, where the
specification demands an InvalidEndpoint-style failure for every payload
that fails to decode as a varint. -/
theorem contract_from_port_id_accepts_overflowing_varint :
    (uvarint (List.replicate 9 0x80 ++ [2])).2 = -10 ∧
    ContractFromPortID (portIDTag ++ b64Encode (List.replicate 9 0x80 ++ [2])) =
      .ok (contractAddress 0 0) := by
  constructor <;> decide

/-! ### Capability-scoped port binding — `x/wasm/internal/keeper/ibc.go`

The capability authority itself (the SDK port and scoped keepers) is not
part of the given sources; it is modelled from the spec's interface and
its stated claim semantics. -/

/-- Modelled from the spec: the state of the external capability authority
(spec interface: `bindPort`, `getCapability`, `claimCapability`); `bound`
holds the port names bound through the port keeper, `claimed` the
capability names owned by this module's scoped keeper. -/
structure CapabilityState where
  bound : List (List Char)
  claimed : List (List Char)
deriving DecidableEq

/-- Mirrors `host.PortPath`: the capability name under which a port's
capability is stored. -/
def portPath (portID : List Char) : List Char := "ports/".toList ++ portID

/-- Modelled from the spec: `bindPort(name) -> capability` creates the
port's capability; binding is not safe to call twice — it fails after a
prior successful bind of the same name. -/
def bindPort (st : CapabilityState) (portID : List Char) : Except String CapabilityState :=
  if portID ∈ st.bound then .error "port is already bound"
  else .ok { st with bound := portID :: st.bound }

/-- Modelled from the spec: `claimCapability(capability, name)` records
ownership of the named capability; fails if the name is already claimed. -/
def claimCapability (st : CapabilityState) (name : List Char) : Except String CapabilityState :=
  if name ∈ st.claimed then .error "capability already claimed"
  else .ok { st with claimed := name :: st.claimed }

/-- Modelled from the spec: `getCapability(name)` reports whether this
module already owns the named capability (checked by name). -/
def getCapability (st : CapabilityState) (name : List Char) : Bool :=
  decide (name ∈ st.claimed)

/-- The only keeper state the port-binding paths consult: whether a port
keeper is configured; `false` models the `k.portKeeper == nil` escape
hatch used in isolated testing. -/
structure Keeper where
  hasPortKeeper : Bool
deriving DecidableEq

/-- Mirrors `Keeper.bindIbcPort`: a no-op without a port keeper; otherwise
bind the port and claim the resulting capability under the port path. -/
def bindIbcPort (k : Keeper) (st : CapabilityState) (portID : List Char) :
    Except String CapabilityState :=
  if k.hasPortKeeper = false then .ok st
  else
    match bindPort st portID with
    | .error e => .error e
    | .ok st1 => claimCapability st1 (portPath portID)

/-- Mirrors `Keeper.ensureIbcPort`: derive the port id; if the capability
is already owned (checked by name via `getCapability`) succeed without
binding, otherwise bind. -/
def ensureIbcPort (k : Keeper) (st : CapabilityState) (codeID instanceID : Nat) :
    (List Char) × Except String CapabilityState :=
  if k.hasPortKeeper = false then (PortIDForContract codeID instanceID, .ok st)
  else
    if getCapability st (portPath (PortIDForContract codeID instanceID)) then
      (PortIDForContract codeID instanceID, .ok st)
    else
      (PortIDForContract codeID instanceID,
        bindIbcPort k st (PortIDForContract codeID instanceID))

/-- C6: when a first `ensureIbcPort` call for (codeID, instanceID)
succeeds with state `st1`, a second call on `st1` never fails, returns the
same port identifier, and leaves the state unchanged; moreover the second
call cannot have called `bind` unconditionally, since `bindIbcPort` on
`st1` necessarily fails for that port. -/
theorem ensure_ibc_port_idempotent (k : Keeper) (st st1 : CapabilityState)
    (codeID instanceID : Nat)
    (h : (ensureIbcPort k st codeID instanceID).2 = .ok st1) :
    ensureIbcPort k st1 codeID instanceID =
      ((ensureIbcPort k st codeID instanceID).1, .ok st1) ∧
    (k.hasPortKeeper = true →
      ∃ e, bindIbcPort k st1 (PortIDForContract codeID instanceID) = .error e) := by
  cases hk : k.hasPortKeeper with
  | false =>
    simp only [ensureIbcPort, hk, if_pos rfl] at h ⊢
    cases h
    simp
  | true =>
    have hcf : ¬ (k.hasPortKeeper = false) := by simp [hk]
    rw [ensureIbcPort, if_neg hcf] at h
    by_cases hclaim : getCapability st (portPath (PortIDForContract codeID instanceID)) = true
    · rw [if_pos hclaim] at h
      simp only at h
      cases h
      constructor
      · rw [ensureIbcPort, if_neg hcf, if_pos hclaim]
      · intro _
        rw [bindIbcPort, if_neg hcf]
        by_cases hmem : PortIDForContract codeID instanceID ∈ st.bound
        · rw [bindPort, if_pos hmem]
          exact ⟨_, rfl⟩
        · rw [bindPort, if_neg hmem]
          simp only
          have hmem2 : portPath (PortIDForContract codeID instanceID) ∈ st.claimed := by
            rw [getCapability] at hclaim
            exact of_decide_eq_true hclaim
          rw [claimCapability, if_pos hmem2]
          exact ⟨_, rfl⟩
    · rw [if_neg hclaim] at h
      simp only at h
      rw [bindIbcPort, if_neg hcf] at h
      by_cases hmem : PortIDForContract codeID instanceID ∈ st.bound
      · rw [bindPort, if_pos hmem] at h
        simp at h
      · rw [bindPort, if_neg hmem] at h
        simp only at h
        by_cases hcl : portPath (PortIDForContract codeID instanceID) ∈ st.claimed
        · rw [claimCapability, if_pos hcl] at h
          simp at h
        · rw [claimCapability, if_neg hcl] at h
          cases h
          have hget : getCapability
              { st with
                bound := PortIDForContract codeID instanceID :: st.bound,
                claimed := portPath (PortIDForContract codeID instanceID) :: st.claimed }
              (portPath (PortIDForContract codeID instanceID)) = true := by
            rw [getCapability]
            exact decide_eq_true (List.mem_cons_self _ _)
          constructor
          · rw [ensureIbcPort, if_neg hcf, if_pos hget, ensureIbcPort, if_neg hcf, if_neg hclaim]
          · intro _
            rw [bindIbcPort, if_neg hcf, bindPort, if_pos (List.mem_cons_self _ _)]
            exact ⟨_, rfl⟩


set_option maxRecDepth 8192 in
/-- Witness for C6: keeper with a port keeper, empty authority state,
contract (1, 2); the first call binds and claims, the second call
succeeds by the ownership check. -/
theorem ensure_ibc_port_idempotent_witness :
    ensureIbcPort ⟨true⟩
        ⟨[PortIDForContract 1 2], [portPath (PortIDForContract 1 2)]⟩ 1 2 =
      ((ensureIbcPort ⟨true⟩ ⟨[], []⟩ 1 2).1,
        .ok ⟨[PortIDForContract 1 2], [portPath (PortIDForContract 1 2)]⟩) ∧
    ((⟨true⟩ : Keeper).hasPortKeeper = true →
      ∃ e, bindIbcPort ⟨true⟩
          ⟨[PortIDForContract 1 2], [portPath (PortIDForContract 1 2)]⟩
          (PortIDForContract 1 2) = .error e) :=
  ensure_ibc_port_idempotent ⟨true⟩ ⟨[], []⟩
    ⟨[PortIDForContract 1 2], [portPath (PortIDForContract 1 2)]⟩ 1 2 (by decide)

/-! ### Ping-pong mock contract — `x/wasm/relay_pingpong_test.go` -/

/-- Actor name of the ping player. -/
def ping : String := "ping"

/-- Actor name of the pong player. -/
def pong : String := "pong"

/-- Packet timeout height used throughout the test (`doNotTimeout`). -/
def doNotTimeout : Nat := 110000

/-- Mirrors `counterParty`; the Go switch panics on any other actor, which
is unreachable for the two players the test constructs, so the theorems
below quantify over the two valid actors. -/
def counterParty (s : String) : String :=
  if s = ping then pong else if s = pong then ping else ""

/-- One channel endpoint (`cosmwasmv2.IBCEndpoint`). -/
structure IBCEndpoint where
  port : String
  channel : String
deriving DecidableEq

/-- The channel data the player consults (`cosmwasmv2.IBCChannel`). -/
structure IBCChannel where
  endpoint : IBCEndpoint
  counterpartyEndpoint : IBCEndpoint
  version : String
deriving DecidableEq

/-- Mirrors `connectedChannelsModel`: the persisted endpoint pair. -/
structure ConnectedChannelsModel where
  our : IBCEndpoint
  their : IBCEndpoint
deriving DecidableEq

/-- Go map read `h[k]` on the decoded `hit` map: the stored value, or 0
when the key is absent. -/
def hitGet (h : List (String × Nat)) (k : String) : Nat :=
  match h.find? (fun kv => kv.1 == k) with
  | some kv => kv.2
  | none => 0

/-- Models the result of `json.Unmarshal` of a packet's raw bytes into the
`hit` map: a parse failure with its error message, or the decoded map. -/
inductive PacketData where
  | malformed (errMsg : String)
  | ball (h : List (String × Nat))
deriving DecidableEq

/-- The packet fields the player consults (`cosmwasmv2.IBCPacket`), with
its raw data in decoded form. -/
structure IBCPacket where
  data : PacketData
  source : IBCEndpoint
  dest : IBCEndpoint
  sequence : Nat
  timeoutHeight : Nat
deriving DecidableEq

/-- The acknowledgment payload `hitAcknowledgement`: an error message
(empty when absent, mirroring `omitempty`) and an optional success hit. -/
structure HitAck where
  error : String
  success : Option (List (String × Nat))
deriving DecidableEq

/-- Mirrors `hit.BuildAck`. -/
def buildAck (h : List (String × Nat)) : HitAck := { error := "", success := some h }

/-- Mirrors `hit.BuildError`. -/
def buildError (msg : String) : HitAck := { error := msg, success := none }

/-- The mock contract's isolated KV store, one field per key the player
uses (`ibc-endpoints`, `max-value`, `lastBallSent`, `lastBallReceived`,
`sentBalls`, `recvBalls`, `confBalls`); `none` models an absent key, and
an absent `ibc-endpoints` key decodes as the empty list. -/
structure ContractStore where
  ibcEndpoints : List ConnectedChannelsModel
  maxValue : Option Nat
  lastBallSent : Option Nat
  lastBallReceived : Option Nat
  sentBalls : Option Nat
  recvBalls : Option Nat
  confBalls : Option Nat
deriving DecidableEq

/-- Store with no keys set. -/
def emptyStore : ContractStore :=
  { ibcEndpoints := [], maxValue := none, lastBallSent := none,
    lastBallReceived := none, sentBalls := none, recvBalls := none, confBalls := none }

/-- Reading a counter cell: `sdk.BigEndianToUint64` of the stored bytes,
or 0 when the key is absent. -/
def counterValue (cell : Option Nat) : Nat :=
  match cell with
  | some v => v
  | none => 0

/-- Mirrors `player.incrementCounter`: read the counter (0 when absent),
increment on Go `uint64` (wrapping modulo `2 ^ 64`), store, and return the
new value. -/
def incrementCounter (cell : Option Nat) : Nat × Option Nat :=
  let next := (counterValue cell + 1) % 2 ^ 64
  (next, some next)

/-- Mirrors `player.storeEndpoint`: load the stored pair list, append the
new pair unconditionally, and store it back. -/
def storeEndpoint (store : ContractStore) (channel : IBCChannel) : ContractStore :=
  { store with ibcEndpoints := store.ibcEndpoints ++
      [{ our := channel.endpoint, their := channel.counterpartyEndpoint }] }

/-- Mirrors `player.OnIBCChannelConnect`: persist the endpoint pair and
return no error. -/
def onIBCChannelConnect (store : ContractStore) (channel : IBCChannel) :
    ContractStore × Option String :=
  (storeEndpoint store channel, none)

/-- The reply message the player emits (`cosmwasmv2.IBCSendMsg`, the only
`CosmosMsg` variant this contract produces). -/
structure IBCSendMsg where
  channelID : String
  data : List (String × Nat)
  timeoutHeight : Nat
deriving DecidableEq

/-- Receive response (`cosmwasmv2.IBCPacketReceiveResponse`), with the
acknowledgment in decoded form. -/
structure IBCPacketReceiveResponse where
  acknowledgement : HitAck
  messages : List IBCSendMsg
deriving DecidableEq

/-- The normal-play tail of `OnIBCPacketReceive`: bump `lastBallSent` to
obtain the next value, build the reply hit for the source channel, bump
`sentBalls`, and return the success acknowledgment for the received ball
plus the single outbound message. -/
def pingPongReply (actor : String) (store : ContractStore)
    (receivedBall : List (String × Nat)) (packet : IBCPacket) :
    IBCPacketReceiveResponse × ContractStore × Option String :=
  let r := incrementCounter store.lastBallSent
  let store1 := { store with lastBallSent := r.2 }
  let newHit := [(actor, r.1)]
  let respHit : IBCSendMsg :=
    { channelID := packet.source.channel, data := newHit, timeoutHeight := doNotTimeout }
  let r2 := incrementCounter store1.sentBalls
  let store2 := { store1 with sentBalls := r2.2 }
  ({ acknowledgement := buildAck receivedBall, messages := [respHit] }, store2, none)

/-- Mirrors `player.OnIBCPacketReceive`. Every Go return path carries a
nil fatal error (the last component) and exactly one acknowledgment: a
parse failure is answered with an error-tagged acknowledgment and no
messages; a received value above the configured `max-value` is answered
with an error acknowledgment and no messages; otherwise the game
continues via `pingPongReply`. -/
def onIBCPacketReceive (actor : String) (store : ContractStore) (packet : IBCPacket) :
    IBCPacketReceiveResponse × ContractStore × Option String :=
  match packet.data with
  | .malformed errMsg =>
    ({ acknowledgement := { error := errMsg, success := none }, messages := [] }, store, none)
  | .ball receivedBall =>
    let r1 := incrementCounter store.recvBalls
    let store1 := { store with recvBalls := r1.2 }
    let otherCount := hitGet receivedBall (counterParty actor)
    let store2 := { store1 with lastBallReceived := some otherCount }
    match store2.maxValue with
    | some maxVal =>
      if otherCount > maxVal then
        let errMsg := "max value exceeded: " ++ toString maxVal ++ " got " ++ toString otherCount
        ({ acknowledgement := buildError errMsg, messages := [] }, store2, none)
      else pingPongReply actor store2 receivedBall packet
    | none => pingPongReply actor store2 receivedBall packet

/-- Models `json.Unmarshal` of the acknowledgment bytes into
`hitAcknowledgement`. -/
inductive AckData where
  | malformed (errMsg : String)
  | parsed (ack : HitAck)
deriving DecidableEq

/-- The acknowledgment frame (`cosmwasmv2.IBCAcknowledgement`): the
original packet's data and the acknowledgment payload, as parse results. -/
structure IBCAcknowledgement where
  originalPacketData : PacketData
  acknowledgement : AckData
deriving DecidableEq

/-- Mirrors `player.OnIBCPacketAcknowledgement`: a fatal error (nil
response) when either payload fails to parse; otherwise the success branch
and the application-error branch both only log, and the confirmed-balls
counter is incremented exactly once before returning the (non-nil) empty
response. -/
def onIBCPacketAcknowledgement (_actor : String) (store : ContractStore)
    (packetAck : IBCAcknowledgement) :
    Option Unit × ContractStore × Option String :=
  match packetAck.originalPacketData with
  | .malformed e => (none, store, some e)
  | .ball _ =>
    match packetAck.acknowledgement with
    | .malformed e => (none, store, some e)
    | .parsed _ =>
      let r := incrementCounter store.confBalls
      (some (), { store with confBalls := r.2 }, none)

/-- Concrete channel used to exhibit the C7 replay behavior. -/
def sampleChannel : IBCChannel :=
  { endpoint := { port := "wasmport", channel := "channel-1" },
    counterpartyEndpoint := { port := "otherport", channel := "channel-7" },
    version := "ping" }

/-- C7 failing input/divergence: invoking `OnIBCChannelConnect` twice for
the same channel leaves two identical endpoint pairs recorded for the
local channel id "channel-1" — the handler appends unconditionally, where
idempotency under replay demands exactly one pair. -/
theorem on_ibc_channel_connect_duplicates :
    ((onIBCChannelConnect (onIBCChannelConnect emptyStore sampleChannel).1
        sampleChannel).1.ibcEndpoints.filter
      (fun p => p.our.channel == "channel-1")).length = 2 := by
  decide

set_option linter.unusedVariables false in
/-- C8: for either player, every received packet is answered with exactly
one acknowledgment and no fatal error: a malformed payload gets an
error-tagged acknowledgment and no outbound messages (soft failure); a
carried value above the configured max-value gets the error
acknowledgment and no outbound reply; a well-formed in-bound value gets
the success acknowledgment for the received ball plus exactly one
outbound packet message. -/
theorem on_ibc_packet_receive_spec (actor : String) (store : ContractStore)
    (packet : IBCPacket) (hactor : actor = ping ∨ actor = pong) :
    (onIBCPacketReceive actor store packet).2.2 = none ∧
    (∀ m, packet.data = .malformed m →
      (onIBCPacketReceive actor store packet).1 =
        { acknowledgement := { error := m, success := none }, messages := [] }) ∧
    (∀ h mv, packet.data = .ball h → store.maxValue = some mv →
      mv < hitGet h (counterParty actor) →
      (onIBCPacketReceive actor store packet).1 =
        { acknowledgement := buildError ("max value exceeded: " ++ toString mv ++
            " got " ++ toString (hitGet h (counterParty actor))),
          messages := [] }) ∧
    (∀ h, packet.data = .ball h →
      (∀ mv, store.maxValue = some mv → hitGet h (counterParty actor) ≤ mv) →
      (onIBCPacketReceive actor store packet).1.acknowledgement = buildAck h ∧
      (onIBCPacketReceive actor store packet).1.messages.length = 1) := by
  cases hdata : packet.data with
  | malformed m =>
    refine ⟨?_, ?_, ?_, ?_⟩
    · simp [onIBCPacketReceive, hdata]
    · intro m2 hm2
      cases hm2
      simp [onIBCPacketReceive, hdata]
    · intro h mv hb
      cases hb
    · intro h hb
      cases hb
  | ball h0 =>
    refine ⟨?_, ?_, ?_, ?_⟩
    · cases hmv : store.maxValue with
      | none => simp [onIBCPacketReceive, hdata, hmv, pingPongReply]
      | some mv =>
        by_cases hgt : hitGet h0 (counterParty actor) > mv
        · simp [onIBCPacketReceive, hdata, hmv, hgt]
        · simp [onIBCPacketReceive, hdata, hmv, hgt, pingPongReply]
    · intro m2 hm2
      cases hm2
    · intro h mv hb hmax hlt
      cases hb
      simp [onIBCPacketReceive, hdata, hmax, hlt, buildError]
    · intro h hb hcond
      cases hb
      cases hmv : store.maxValue with
      | none =>
        constructor
        · simp [onIBCPacketReceive, hdata, hmv, pingPongReply]
        · simp [onIBCPacketReceive, hdata, hmv, pingPongReply]
      | some mv =>
        have hle : hitGet h0 (counterParty actor) ≤ mv := hcond mv hmv
        have hngt : ¬ (hitGet h0 (counterParty actor) > mv) := Nat.not_lt.mpr hle
        constructor
        · simp [onIBCPacketReceive, hdata, hmv, hngt, pingPongReply]
        · simp [onIBCPacketReceive, hdata, hmv, hngt, pingPongReply]

/-- C9: whenever the original packet data and the acknowledgment both
parse, `OnIBCPacketAcknowledgement` updates the confirmed-balls counter to
exactly its old value plus one and reports no error — for every
acknowledgment content, so both the success branch and the
application-error branch confirm exactly once. -/
theorem on_ibc_packet_ack_confirms_once (actor : String) (store : ContractStore)
    (packetAck : IBCAcknowledgement) (s : List (String × Nat)) (a : HitAck)
    (horig : packetAck.originalPacketData = .ball s)
    (hack : packetAck.acknowledgement = .parsed a)
    (hnowrap : counterValue store.confBalls + 1 < 2 ^ 64) :
    (onIBCPacketAcknowledgement actor store packetAck).2.1.confBalls =
      some (counterValue store.confBalls + 1) ∧
    (onIBCPacketAcknowledgement actor store packetAck).2.2 = none ∧
    (onIBCPacketAcknowledgement actor store packetAck).1 = some () := by
  simp [onIBCPacketAcknowledgement, horig, hack, incrementCounter]
  omega

/-- Witness for C8: the ping player receiving a well-formed pong ball with
no max-value configured answers with a success acknowledgment and one
outbound message. -/
theorem on_ibc_packet_receive_spec_witness :
    (onIBCPacketReceive ping emptyStore
        { data := .ball [(pong, 3)], source := { port := "p1", channel := "channel-1" },
          dest := { port := "p2", channel := "channel-2" }, sequence := 1,
          timeoutHeight := doNotTimeout }).1.acknowledgement = buildAck [(pong, 3)] ∧
    (onIBCPacketReceive ping emptyStore
        { data := .ball [(pong, 3)], source := { port := "p1", channel := "channel-1" },
          dest := { port := "p2", channel := "channel-2" }, sequence := 1,
          timeoutHeight := doNotTimeout }).1.messages.length = 1 :=
  (on_ibc_packet_receive_spec ping emptyStore _ (Or.inl rfl)).2.2.2 [(pong, 3)] rfl
    (fun mv hmv => by simp [emptyStore] at hmv)

/-- Witness for C9: acknowledging a parsed success acknowledgment on the
empty store confirms exactly once. -/
theorem on_ibc_packet_ack_confirms_once_witness :
    (onIBCPacketAcknowledgement ping emptyStore
        { originalPacketData := .ball [(ping, 1)],
          acknowledgement := .parsed (buildAck [(ping, 1)]) }).2.1.confBalls =
      some (counterValue emptyStore.confBalls + 1) ∧
    (onIBCPacketAcknowledgement ping emptyStore
        { originalPacketData := .ball [(ping, 1)],
          acknowledgement := .parsed (buildAck [(ping, 1)]) }).2.2 = none ∧
    (onIBCPacketAcknowledgement ping emptyStore
        { originalPacketData := .ball [(ping, 1)],
          acknowledgement := .parsed (buildAck [(ping, 1)]) }).1 = some () :=
  on_ibc_packet_ack_confirms_once ping emptyStore _ [(ping, 1)] (buildAck [(ping, 1)])
    rfl rfl (by decide)

end Wasmd
